import Mathlib

/-!
Verification development for the narko repository: a Markdown-to-Notion
block converter (legacy single-file converter in narko.py and the
packaged converter in src/narko/), plus the Notion client used for
block reconciliation (src/narko/notion/client.py).

Python strings are modelled as lists of characters; Python dicts that
cross the API boundary are modelled as structures mirroring the keys
the source reads.  Functions that consult the filesystem, the upload
delegate, or str() of an AST object receive those effects through an
explicit environment record.
-/

namespace Narko

/-- Python strings, modelled as lists of characters. -/
abbrev PyStr := List Char

/-- Characters recognised by Python str.isspace / str.strip / str.lstrip
for the ASCII range. -/
def pyIsSpace (c : Char) : Bool :=
  c = ' ' || c = '\t' || c = '\n' || c = '\r' || c = '\x0b' || c = '\x0c'

/-- Python str.startswith for a single candidate. -/
def startsWithStr : PyStr → PyStr → Bool
  | _, [] => true
  | [], _ :: _ => false
  | c :: cs, p :: ps => c = p && startsWithStr cs ps

/-- Python substring containment, the binary in operator on str. -/
def strContains : PyStr → PyStr → Bool
  | [], sub => sub.isEmpty
  | hay@(_ :: t), sub => startsWithStr hay sub || strContains t sub

/-- Python str.lower (ASCII range). -/
def pyLower (s : PyStr) : PyStr := s.map Char.toLower

/-- Python str.upper (ASCII range). -/
def pyUpper (s : PyStr) : PyStr := s.map Char.toUpper

/-- Python str.strip. -/
def pyStrip (s : PyStr) : PyStr :=
  ((s.dropWhile pyIsSpace).reverse.dropWhile pyIsSpace).reverse

/-- Python truthiness-based or on strings: a or b. -/
def pyOr (a b : PyStr) : PyStr := if a ≠ [] then a else b

/-!
### narko.py chunk_text

text.rfind(chr 32, 0, limit) returns the greatest index i < limit
carrying a space, or -1.  We return an Option instead of -1.
-/

/-- Index of the last space among the first limit characters, if any
(models text.rfind of a space over the slice up to limit). -/
def lastSpaceBefore : PyStr → Nat → Option Nat
  | _, 0 => none
  | [], _ + 1 => none
  | c :: rest, limit + 1 =>
    match lastSpaceBefore rest limit with
    | some i => some (i + 1)
    | none => if c = ' ' then some 0 else none

/-- The while-loop of chunk_text.  Each iteration consumes at least one
character when limit is at least 1, so fuel equal to the initial length
is enough; the fuel-exhausted branch is never reached in that regime
(the Python loop does not terminate for limit 0 on space-free text). -/
def chunkLoop (limit : Nat) : Nat → PyStr → List PyStr
  | _, [] => []
  | 0, text => [text]
  | fuel + 1, text =>
    if text.length ≤ limit then [text]
    else
      let split := (lastSpaceBefore text limit).getD limit
      text.take split :: chunkLoop limit fuel ((text.drop split).dropWhile pyIsSpace)

/-- narko.py chunk_text: split text into chunks while preserving word
boundaries. -/
def chunk_text (text : PyStr) (limit : Nat) : List PyStr :=
  if text.length ≤ limit then [text] else chunkLoop limit text.length text

theorem lastSpaceBefore_some {t : PyStr} {L i : Nat}
    (h : lastSpaceBefore t L = some i) :
    i < L ∧ i < t.length ∧ ∃ u, t.drop i = ' ' :: u := by
  induction t generalizing L i with
  | nil =>
    cases L with
    | zero => simp [lastSpaceBefore] at h
    | succ L => simp [lastSpaceBefore] at h
  | cons c rest ih =>
    cases L with
    | zero => simp [lastSpaceBefore] at h
    | succ L =>
      simp only [lastSpaceBefore] at h
      cases hrec : lastSpaceBefore rest L with
      | some j =>
        rw [hrec] at h
        simp only [Option.some.injEq] at h
        obtain ⟨hjL, hjlen, u, hu⟩ := ih hrec
        subst h
        refine ⟨by omega, by simp; omega, u, ?_⟩
        simpa using hu
      | none =>
        rw [hrec] at h
        by_cases hc : c = ' '
        · simp only [hc, if_pos rfl] at h
          cases h
          exact ⟨Nat.succ_pos L, by simp, rest, by simp [hc]⟩
        · simp [hc] at h

theorem lastSpaceBefore_none {t : PyStr} {L : Nat}
    (h : lastSpaceBefore t L = none) : ∀ c ∈ t.take L, c ≠ ' ' := by
  induction t generalizing L with
  | nil => simp
  | cons c rest ih =>
    cases L with
    | zero => simp
    | succ L =>
      simp only [lastSpaceBefore] at h
      cases hrec : lastSpaceBefore rest L with
      | some j => rw [hrec] at h; cases h
      | none =>
        rw [hrec] at h
        by_cases hc : c = ' '
        · simp [hc] at h
        · intro x hx
          simp only [List.take_succ_cons, List.mem_cons] at hx
          rcases hx with rfl | hx
          · exact hc
          · exact ih hrec x hx

/-- Decomposition of a string into the chunks the algorithm emits plus
the whitespace runs it consumes.  This is the amended round-trip
property: the chunks concatenated with whitespace-only separators
reproduce the input, and a non-final chunk followed by an empty
separator (a hard cut) is a full-length chunk containing no space. -/
inductive ChunkedFrom (L : Nat) : PyStr → List PyStr → Prop
  | nil : ChunkedFrom L [] []
  | last (c w : PyStr) :
      c.length ≤ L →
      (∀ ch ∈ w, pyIsSpace ch = true) →
      ChunkedFrom L (c ++ w) [c]
  | cons (c w rest : PyStr) (cs : List PyStr) :
      c.length ≤ L →
      (∀ ch ∈ w, pyIsSpace ch = true) →
      (w = [] → c.length = L ∧ ' ' ∉ c) →
      ChunkedFrom L rest cs →
      ChunkedFrom L (c ++ w ++ rest) (c :: cs)

theorem ChunkedFrom.length_le {L : Nat} {s : PyStr} {cs : List PyStr}
    (h : ChunkedFrom L s cs) : ∀ c ∈ cs, c.length ≤ L := by
  induction h with
  | nil => simp
  | last c w hc _ => simpa using hc
  | cons c w rest cs hc _ _ _ ih =>
    intro x hx
    rcases List.mem_cons.mp hx with rfl | hx
    · exact hc
    · exact ih x hx

theorem chunkLoop_step (L : Nat) (_hL : 1 ≤ L) (fuel : Nat)
    (ih : ∀ text : PyStr, text.length ≤ fuel →
      ChunkedFrom L text (chunkLoop L fuel text))
    (c0 : Char) (t0 : PyStr) ( hlen : (c0 :: t0).length ≤ fuel + 1)
    (_hshort : ¬ (c0 :: t0).length ≤ L) (i : Nat)
    (hiL : i < L) (hilen : i < (c0 :: t0).length)
    (hspace : i < L → ∃ u, (c0 :: t0).drop i = ' ' :: u) (_hsp : True) :
    ChunkedFrom L (c0 :: t0)
      ((c0 :: t0).take i ::
        chunkLoop L fuel (((c0 :: t0).drop i).dropWhile pyIsSpace)) := by
  obtain ⟨u, hu⟩ := hspace hiL
  have hsplit :
      ((c0 :: t0).take i ++
        ((c0 :: t0).drop i).takeWhile pyIsSpace) ++
          ((c0 :: t0).drop i).dropWhile pyIsSpace = c0 :: t0 := by
    rw [List.append_assoc, List.takeWhile_append_dropWhile, List.take_append_drop]
  have hw0 : ((c0 :: t0).drop i).takeWhile pyIsSpace =
      ' ' :: u.takeWhile pyIsSpace := by
    rw [hu, List.takeWhile_cons, if_pos (by simp [pyIsSpace])]
  have hrlen : (((c0 :: t0).drop i).dropWhile pyIsSpace).length ≤ fuel := by
    have h1 : ((c0 :: t0).drop i).length = (c0 :: t0).length - i :=
      List.length_drop i (c0 :: t0)
    have h2 : (((c0 :: t0).drop i).takeWhile pyIsSpace).length +
        (((c0 :: t0).drop i).dropWhile pyIsSpace).length =
        (c0 :: t0).length - i := by
      rw [← List.length_append, List.takeWhile_append_dropWhile, h1]
    have h4 : 1 ≤ (((c0 :: t0).drop i).takeWhile pyIsSpace).length := by
      rw [hw0]; simp
    omega
  have hstep := ChunkedFrom.cons (L := L) ((c0 :: t0).take i)
    (((c0 :: t0).drop i).takeWhile pyIsSpace)
    (((c0 :: t0).drop i).dropWhile pyIsSpace)
    (chunkLoop L fuel (((c0 :: t0).drop i).dropWhile pyIsSpace))
    (by rw [List.length_take]; omega)
    (fun ch hch => List.mem_takeWhile_imp hch)
    (by intro hwe; rw [hw0] at hwe; cases hwe)
    (ih _ hrlen)
  rw [hsplit] at hstep
  exact hstep

theorem chunkLoop_chunked (L : Nat) (hL : 1 ≤ L) :
    ∀ fuel (text : PyStr), text.length ≤ fuel →
      ChunkedFrom L text (chunkLoop L fuel text) := by
  intro fuel
  induction fuel with
  | zero =>
    intro text hlen
    rcases text with _ | ⟨c, t⟩
    · exact ChunkedFrom.nil
    · simp at hlen
  | succ fuel ih =>
    intro text hlen
    rcases text with _ | ⟨c0, t0⟩
    · exact ChunkedFrom.nil
    · simp only [chunkLoop]
      by_cases hshort : (c0 :: t0).length ≤ L
      · rw [if_pos hshort]
        have := ChunkedFrom.last (L := L) (c0 :: t0) [] hshort (by simp)
        simpa using this
      · rw [if_neg hshort]
        cases hs : lastSpaceBefore (c0 :: t0) L with
        | some i =>
          obtain ⟨hiL, hilen, u, hu⟩ := lastSpaceBefore_some hs
          simp only [Option.getD_some]
          exact chunkLoop_step L hL fuel ih c0 t0 hlen hshort i hiL hilen
            (fun _ => ⟨u, hu⟩) trivial
        | none =>
          simp only [Option.getD_none]
          have hsplit :
              ((c0 :: t0).take L ++
                ((c0 :: t0).drop L).takeWhile pyIsSpace) ++
                  ((c0 :: t0).drop L).dropWhile pyIsSpace = c0 :: t0 := by
            rw [List.append_assoc, List.takeWhile_append_dropWhile,
              List.take_append_drop]
          have htake : ((c0 :: t0).take L).length = L := by
            rw [List.length_take]; omega
          have hnospace : ' ' ∉ (c0 :: t0).take L := by
            intro hmem
            exact (lastSpaceBefore_none hs ' ' hmem) rfl
          have hrlen :
              (((c0 :: t0).drop L).dropWhile pyIsSpace).length ≤ fuel := by
            have h1 : (((c0 :: t0).drop L).dropWhile pyIsSpace).length ≤
                ((c0 :: t0).drop L).length :=
              (List.dropWhile_sublist _).length_le
            have h2 : ((c0 :: t0).drop L).length = (c0 :: t0).length - L :=
              List.length_drop L (c0 :: t0)
            omega
          have hstep := ChunkedFrom.cons (L := L) ((c0 :: t0).take L)
            (((c0 :: t0).drop L).takeWhile pyIsSpace)
            (((c0 :: t0).drop L).dropWhile pyIsSpace)
            (chunkLoop L fuel (((c0 :: t0).drop L).dropWhile pyIsSpace))
            (le_of_eq htake)
            (fun ch hch => List.mem_takeWhile_imp hch)
            (fun _ => ⟨htake, hnospace⟩)
            (ih _ hrlen)
          rw [hsplit] at hstep
          exact hstep

/-- The chunk list is never empty. -/
theorem chunk_text_ne_nil (s : PyStr) (L : Nat) : chunk_text s L ≠ [] := by
  unfold chunk_text
  by_cases h : s.length ≤ L
  · simp [h]
  · rw [if_neg h]
    rcases s with _ | ⟨c, t⟩
    · simp at h
    · simp only [List.length_cons, chunkLoop]
      split <;> simp

/-- Interleaving used to state the claim as written: each of the
cs.length - 1 split points may consume one separator string. -/
def joinAlt : List PyStr → List PyStr → PyStr
  | [], _ => []
  | c :: cs, [] => c ++ joinAlt cs []
  | c :: cs, w :: ws => c ++ w ++ joinAlt cs ws

/-- Claim C3 as stated: chunks fit the limit, and the input is
reproduced when at most a single interior whitespace character is
re-inserted at each split point. -/
def singleSpaceRoundTrip (s : PyStr) (L : Nat) : Prop :=
  (∀ c ∈ chunk_text s L, c.length ≤ L) ∧
  ∃ ws : List PyStr,
    ws.length + 1 = (chunk_text s L).length ∧
    (∀ w ∈ ws, w.length ≤ 1 ∧ ∀ ch ∈ w, pyIsSpace ch = true) ∧
    joinAlt (chunk_text s L) ws = s

/-- C3 counterexample: chunking consumes a whole run of whitespace at a
split point, not a single character.  Chunking a-a-space-space-space-b
with limit 3 yields the chunks aa and b, and no re-insertion of at most
one whitespace character per split point can reproduce the input. -/
theorem C3_single_space_cex :
    ¬ singleSpaceRoundTrip ['a', 'a', ' ', ' ', ' ', 'b'] 3 := by
  intro h
  obtain ⟨-, ws, hlen, hws, hjoin⟩ := h
  have hchunks : chunk_text ['a', 'a', ' ', ' ', ' ', 'b'] 3 =
      [['a', 'a'], ['b']] := by decide
  rw [hchunks] at hlen hjoin
  rcases ws with _ | ⟨w, ws'⟩
  · simp at hlen
  · rcases ws' with _ | ⟨w2, ws''⟩
    · have hlen2 := congrArg List.length hjoin
      simp only [joinAlt, List.length_append, List.length_cons,
        List.length_nil] at hlen2
      have hw1 := (hws w (by simp)).1
      omega
    · simp at hlen

/-- C3 amended: for a positive limit, every chunk respects the limit
and the input decomposes as the chunks interleaved with whitespace-only
runs consumed at the split points, where a hard cut (empty consumed
run before a further chunk) happens only on a full-length chunk with no
space in the window. -/
theorem C3_chunking_round_trip (s : PyStr) (L : Nat) (hL : 1 ≤ L) :
    (∀ c ∈ chunk_text s L, c.length ≤ L) ∧
      ChunkedFrom L s (chunk_text s L) := by
  have h : ChunkedFrom L s (chunk_text s L) := by
    unfold chunk_text
    by_cases hs : s.length ≤ L
    · rw [if_pos hs]
      have := ChunkedFrom.last (L := L) s [] hs (by simp)
      simpa using this
    · rw [if_neg hs]
      exact chunkLoop_chunked L hL s.length s le_rfl
  exact ⟨h.length_le, h⟩

theorem C3_chunking_round_trip_witness :
    1 ≤ 3 ∧
      ((∀ c ∈ chunk_text ['a', 'a', 'a', 'a', ' ', 'b'] 3, c.length ≤ 3) ∧
        ChunkedFrom 3 ['a', 'a', 'a', 'a', ' ', 'b']
          (chunk_text ['a', 'a', 'a', 'a', ' ', 'b'] 3)) :=
  ⟨by decide, C3_chunking_round_trip ['a', 'a', 'a', 'a', ' ', 'b'] 3 (by decide)⟩

/-!
### Data model: rich-text fragments and Notion blocks

Rich-text annotation dicts in the source are partial: when a caller of
create_rich_text passes an explicit dict it usually carries only one
key.  Absent keys are modelled as none.
-/

structure Annots where
  bold : Option Bool := none
  italic : Option Bool := none
  strikethrough : Option Bool := none
  underline : Option Bool := none
  code : Option Bool := none
  color : Option PyStr := none
deriving DecidableEq

/-- The full default annotation dict built by create_rich_text when no
annotations are supplied. -/
def defaultAnnots : Annots :=
  { bold := some false, italic := some false, strikethrough := some false,
    underline := some false, code := some false,
    color := some ['d', 'e', 'f', 'a', 'u', 'l', 't'] }

/-- One element of a rich_text array: either a text item (content plus
optional link url and optional annotation dict) or a native equation
item. -/
inductive RTItem where
  | text (content : PyStr) (link : Option PyStr) (annots : Option Annots)
  | equation (expr : PyStr)
deriving DecidableEq

/-- narko.py create_rich_text: chunk the text and attach the same
annotations (defaulted when absent) and the same link to every chunk. -/
def create_rich_text (textv : PyStr) (annots : Option Annots)
    (link : Option PyStr) : List RTItem :=
  let ann := annots.getD defaultAnnots
  (chunk_text textv 2000).map (fun ch => RTItem.text ch link (some ann))

theorem create_rich_text_ne_nil (t : PyStr) (a : Option Annots)
    (l : Option PyStr) : create_rich_text t a l ≠ [] := by
  unfold create_rich_text
  intro h
  exact chunk_text_ne_nil t 2000 (List.map_eq_nil_iff.mp h)

/-- Source of a media (image / file / video / pdf / audio) block. -/
inductive MediaSrc where
  | fileUpload (id : PyStr)
  | external (url : PyStr)
deriving DecidableEq

/-- Notion output blocks, covering every shape the two converters
produce. -/
inductive NBlock where
  | paragraph (rich_text : List RTItem)
  | heading (level : Nat) (rich_text : List RTItem)
  | code (rich_text : List RTItem) (language : PyStr)
  | quote (rich_text : List RTItem)
  | callout (rich_text : List RTItem) (icon : PyStr) (color : Option PyStr)
  | to_do (rich_text : List RTItem) (checked : Bool)
  | listItem (ordered : Bool) (rich_text : List RTItem)
      (children : List NBlock)
  | divider
  | equation (expr : PyStr)
  | media (ftype : PyStr) (src : MediaSrc) (caption : List RTItem)
  | embed (url : PyStr)

/-- Result of converting one node: a single block or a list of blocks
(the dict-or-list union the Python converters return besides None). -/
inductive POut where
  | one (b : NBlock)
  | many (bs : List NBlock)

/-!
### The marko AST node universe

Constructors mirror the marko classes plus the custom extension classes
registered by this repository; each carries the attributes the
converters read.  The children attribute of RawText, CodeSpan and
HTMLBlock is a string; MathBlock, TaskListItem and FileUploadBlock set
children to an empty list in their constructors; ThematicBreak,
BlankLine, LineBreak and InlineMath have no children attribute.
-/

inductive MNode where
  | document (children : List MNode)
  | paragraph (children : List MNode)
  | heading (level : Nat) (children : List MNode)
  | codeBlock (lang : PyStr) (children : List MNode)
  | fencedCode (lang : PyStr) (children : List MNode)
  | list (ordered : Bool) (children : List MNode)
  | listItem (children : List MNode)
  | quote (children : List MNode)
  | thematicBreak
  | blankLine
  | image (dest : PyStr) (title : PyStr) (children : List MNode)
  | link (dest : PyStr) (title : PyStr) (children : List MNode)
  | htmlBlock (body : PyStr)
  | rawText (s : PyStr)
  | emphasis (children : List MNode)
  | strongEmphasis (children : List MNode)
  | codeSpan (s : PyStr)
  | lineBreak
  | mathBlock (content : PyStr)
  | calloutBlock (callout_type : PyStr) (title : PyStr)
      (children : List MNode)
  | taskListItem (checked : Bool) (content : PyStr)
  | fileUploadBlock (file_path : PyStr) (file_type : PyStr) (title : PyStr)
  | highlight (content : PyStr) (children : List MNode)
  | inlineMath (content : PyStr)

/-- The children attribute when it exists and is a string. -/
def strChildren : MNode → Option PyStr
  | .rawText s => some s
  | .codeSpan s => some s
  | .htmlBlock s => some s
  | _ => none

/-- Result dict of the upload delegate, as far as the converter reads
it: its truthiness and its id key if present. -/
structure UploadRes where
  truthy : Bool
  idField : Option PyStr
deriving DecidableEq

/-- Environment carrying the converter's effects: str() of nodes (used
by fallback branches, implementation-defined in Python), str() of child
lists, os.path.exists, and the upload delegate (error means the Python
call raised). -/
structure ConvEnv where
  reprNode : MNode → PyStr
  reprNodes : List MNode → PyStr
  fsExists : PyStr → Bool
  upload : PyStr → Except PyStr UploadRes

/-- A concrete environment for closed evaluations: no file exists,
every repr is empty, uploads return a result without an id key. -/
def trivEnv : ConvEnv :=
  { reprNode := fun _ => [], reprNodes := fun _ => [],
    fsExists := fun _ => false,
    upload := fun _ => .ok { truthy := false, idField := none } }

end Narko

namespace Narko.Script

/-!
### narko.py NotionConverter (the legacy single-file converter)
-/

mutual

/-- narko.py NotionConverter.extract_text: the children attribute when
it is a string is returned, a child list is joined recursively, and a
node without the attribute falls back to str(element). -/
def extract_text (env : ConvEnv) : MNode → PyStr
  | .rawText s => s
  | .codeSpan s => s
  | .htmlBlock s => s
  | .document l => extract_text_join env l
  | .paragraph l => extract_text_join env l
  | .heading _ l => extract_text_join env l
  | .codeBlock _ l => extract_text_join env l
  | .fencedCode _ l => extract_text_join env l
  | .list _ l => extract_text_join env l
  | .listItem l => extract_text_join env l
  | .quote l => extract_text_join env l
  | .image _ _ l => extract_text_join env l
  | .link _ _ l => extract_text_join env l
  | .emphasis l => extract_text_join env l
  | .strongEmphasis l => extract_text_join env l
  | .calloutBlock _ _ l => extract_text_join env l
  | .highlight _ l => extract_text_join env l
  | .mathBlock _ => []
  | .taskListItem _ _ => []
  | .fileUploadBlock _ _ _ => []
  | n => env.reprNode n

def extract_text_join (env : ConvEnv) : List MNode → PyStr
  | [] => []
  | c :: cs => extract_text env c ++ extract_text_join env cs

end

/-- Per-element body of the extract_rich_text loop. -/
def extract_rich_item (env : ConvEnv) (element : MNode) : List RTItem :=
  match element with
  | .rawText s => create_rich_text s none none
  | .highlight content _ =>
      create_rich_text content
        (some { color := some ("yellow_background".data) }) none
  | .inlineMath content =>
      create_rich_text ('$' :: content ++ ['$'])
        (some { code := some true }) none
  | e@(.emphasis _) =>
      create_rich_text (extract_text env e) (some { italic := some true }) none
  | e@(.strongEmphasis _) =>
      create_rich_text (extract_text env e) (some { bold := some true }) none
  | .codeSpan s => create_rich_text s (some { code := some true }) none
  | e@(.link dest _ _) => create_rich_text (extract_text env e) none (some dest)
  | .lineBreak => create_rich_text ['\n'] none none
  | e =>
      let t := extract_text env e
      if t ≠ [] then create_rich_text t none none else []

def extract_rich_loop (env : ConvEnv) : List MNode → List RTItem
  | [] => []
  | e :: es => extract_rich_item env e ++ extract_rich_loop env es

/-- narko.py NotionConverter.extract_rich_text: loop over the inline
children, then substitute a single empty-text item when nothing was
produced. -/
def extract_rich_text (env : ConvEnv) (children : List MNode) : List RTItem :=
  let rt := extract_rich_loop env children
  if rt = [] then [RTItem.text [] none none] else rt

/-!
### Callout handling

The emoji strings below are the literal code points stored in narko.py
(the file holds a double-encoded form of the original emoji; the byte
sequences are preserved exactly as Python reads them).
-/

def noteEmoji : PyStr := "\u201A\u00D1\u03C0\u00D4\u220F\u00E8".data
def tipEmoji : PyStr := "\uF8FF\u00FC\u00ED\u00B0".data
def warningEmoji : PyStr := "\u201A\u00F6\u2020\u00D4\u220F\u00E8".data
def dangerEmoji : PyStr := "\uF8FF\u00FC\u00F6\u00AE".data
def importantEmoji : PyStr := "\u201A\u00F9\u00F3".data
def exampleEmoji : PyStr := "\uF8FF\u00FC\u00EC\u00F9".data
def quoteEmoji : PyStr := "\uF8FF\u00FC\u00ED\u00A8".data
def pinEmoji : PyStr := "\uF8FF\u00FC\u00EC\u00E5".data

def emoji_map : List (PyStr × PyStr) :=
  [("NOTE".data, noteEmoji), ("TIP".data, tipEmoji),
   ("WARNING".data, warningEmoji), ("DANGER".data, dangerEmoji),
   ("INFO".data, noteEmoji), ("IMPORTANT".data, importantEmoji),
   ("EXAMPLE".data, exampleEmoji), ("QUOTE".data, quoteEmoji)]

/-- emoji_map.get(callout_type.upper(), pin). -/
def emojiFor (callout_type : PyStr) : PyStr :=
  ((emoji_map.find? (fun p => p.1 == pyUpper callout_type)).map (·.2)).getD
    pinEmoji

/-- Python \w for the ASCII range. -/
def pyIsWordChar (c : Char) : Bool := c.isAlpha || c.isDigit || c = '_'

/-- Anchored match of the callout pattern: an opening bracket-bang, one
or more word characters, a closing bracket.  Returns the tag and the
text after the closing bracket. -/
def calloutTag : PyStr → Option (PyStr × PyStr)
  | '[' :: '!' :: rest =>
    let tag := rest.takeWhile pyIsWordChar
    if tag = [] then none
    else
      match rest.drop tag.length with
      | ']' :: after => some (tag, after)
      | _ => none
  | _ => none

/-- re.sub of the anchored callout pattern with the empty string: drop
the tag and the following whitespace run when the pattern matches. -/
def stripCalloutMark (s : PyStr) : PyStr :=
  match calloutTag s with
  | some (_, after) => after.dropWhile pyIsSpace
  | none => s

/-- Group 2 of the callout regex: the rest of the first line after the
tag and the whitespace run. -/
def pyGroup2 (after : PyStr) : PyStr :=
  (after.dropWhile pyIsSpace).takeWhile (fun c => c ≠ '\n')

/-- type(subchild)(remaining_text): rebuild a string-children node of
the same class around a new string. -/
def rebuildNode (n : MNode) (s : PyStr) : MNode :=
  match n with
  | .rawText _ => .rawText s
  | .codeSpan _ => .codeSpan s
  | .htmlBlock _ => .htmlBlock s
  | other => other

/-- First-paragraph rewrite done by create_callout: the leading text
child has the callout mark stripped and is kept only when non-empty;
the remaining children pass through unchanged. -/
def modified_children : List MNode → List MNode
  | [] => []
  | sub :: rest =>
    match strChildren sub with
    | some s =>
      let remaining := stripCalloutMark s
      (if remaining ≠ [] then [rebuildNode sub remaining] else []) ++ rest
    | none => sub :: rest

/-- Contribution of the quote child at index zero. -/
def calloutFirst (env : ConvEnv) : MNode → List RTItem
  | .paragraph pcs =>
    let modified := modified_children pcs
    if modified.isEmpty then [] else extract_rich_text env modified
  | _ => []

/-- Contribution of the quote children after index zero. -/
def calloutRest (env : ConvEnv) : List MNode → List RTItem
  | [] => []
  | .paragraph pcs :: rest =>
      extract_rich_text env pcs ++ calloutRest env rest
  | _ :: rest => calloutRest env rest

/-- narko.py NotionConverter.create_callout.  The title parameter
(group 2 of the detection regex) is accepted but unused, exactly as in
the source. -/
def create_callout (env : ConvEnv) (qchildren : List MNode)
    (callout_type : PyStr) (_title : PyStr) : NBlock :=
  let content :=
    match qchildren with
    | [] => []
    | c0 :: crest => calloutFirst env c0 ++ calloutRest env crest
  .callout content (emojiFor callout_type) (some ("gray_background".data))

/-- Callout detection on a Quote node: the first child exists, its
children attribute is a non-empty list, the head of that list has a
string children attribute, and the callout regex matches it.  When the
first grandchild has no children attribute at all the source would
raise; that case is outside every claim and is folded into the
no-detection branch here. -/
def calloutDetect : List MNode → Option (PyStr × PyStr)
  | [] => none
  | c0 :: _ =>
    match c0 with
    | .paragraph (g :: _) => detectOn g
    | .document (g :: _) => detectOn g
    | .heading _ (g :: _) => detectOn g
    | .codeBlock _ (g :: _) => detectOn g
    | .fencedCode _ (g :: _) => detectOn g
    | .list _ (g :: _) => detectOn g
    | .listItem (g :: _) => detectOn g
    | .quote (g :: _) => detectOn g
    | .image _ _ (g :: _) => detectOn g
    | .link _ _ (g :: _) => detectOn g
    | .emphasis (g :: _) => detectOn g
    | .strongEmphasis (g :: _) => detectOn g
    | .calloutBlock _ _ (g :: _) => detectOn g
    | .highlight _ (g :: _) => detectOn g
    | _ => none
where
  detectOn (g : MNode) : Option (PyStr × PyStr) :=
    match strChildren g with
    | some ftext => calloutTag ftext
    | none => none

/-!
### Language normalization for code blocks
-/

def supported_languages : List PyStr :=
  (["python", "javascript", "typescript", "java", "c", "cpp", "c++",
    "csharp", "c#", "ruby", "go", "rust", "kotlin", "swift",
    "objectivec", "objective-c", "scala", "shell", "bash", "powershell",
    "sql", "html", "css", "scss", "sass", "less", "xml", "json",
    "yaml", "toml", "markdown", "latex", "plaintext", "plain text",
    "dart", "elixir", "elm", "erlang", "f#", "fsharp", "haskell",
    "julia", "lua", "perl", "php", "r", "solidity", "mermaid",
    "graphql", "docker", "makefile", "diff", "protobuf", "webassembly",
    "notion formula", "clojure", "coffeescript", "lisp", "matlab",
    "mathematica", "nix", "ocaml", "racket", "reason", "scheme",
    "smalltalk", "vb.net", "verilog", "vhdl", "visual basic"] :
    List String).map (·.data)

def lang_mappings : List (PyStr × PyStr) :=
  ([("py", "python"), ("js", "javascript"), ("ts", "typescript"),
    ("sh", "shell"), ("yml", "yaml"), ("md", "markdown"),
    ("dockerfile", "docker"), ("makefile", "makefile"),
    ("make", "makefile"), ("proto", "protobuf"), ("wasm", "webassembly"),
    ("fs", "f#"), ("ex", "elixir"), ("erl", "erlang"), ("hs", "haskell"),
    ("jl", "julia"), ("ml", "ocaml"), ("rkt", "racket"),
    ("scm", "scheme"), ("sol", "solidity")] :
    List (String × String)).map (fun p => (p.1.data, p.2.data))

def plainTextLang : PyStr := "plain text".data

/-- narko.py NotionConverter.map_language. -/
def map_language (lang : PyStr) : PyStr :=
  if lang = [] then plainTextLang
  else
    let ll := pyLower lang
    if supported_languages.contains ll then ll
    else ((lang_mappings.find? (fun p => p.1 == ll)).map (·.2)).getD
      plainTextLang

/-!
### narko.py NotionConverter.process_node
-/

/-- Shared body of the CodeBlock and FencedCode branch. -/
def codeOut (env : ConvEnv) (lang : PyStr) (l : List MNode) : NBlock :=
  let code_text :=
    match l.head? with
    | none => []
    | some c =>
      match c with
      | .rawText s => s
      | .codeSpan s => s
      | .htmlBlock s => s
      | .document sub => if sub.isEmpty then [] else env.reprNodes sub
      | .paragraph sub => if sub.isEmpty then [] else env.reprNodes sub
      | .heading _ sub => if sub.isEmpty then [] else env.reprNodes sub
      | .codeBlock _ sub => if sub.isEmpty then [] else env.reprNodes sub
      | .fencedCode _ sub => if sub.isEmpty then [] else env.reprNodes sub
      | .list _ sub => if sub.isEmpty then [] else env.reprNodes sub
      | .listItem sub => if sub.isEmpty then [] else env.reprNodes sub
      | .quote sub => if sub.isEmpty then [] else env.reprNodes sub
      | .image _ _ sub => if sub.isEmpty then [] else env.reprNodes sub
      | .link _ _ sub => if sub.isEmpty then [] else env.reprNodes sub
      | .emphasis sub => if sub.isEmpty then [] else env.reprNodes sub
      | .strongEmphasis sub => if sub.isEmpty then [] else env.reprNodes sub
      | .calloutBlock _ _ sub => if sub.isEmpty then [] else env.reprNodes sub
      | .highlight _ sub => if sub.isEmpty then [] else env.reprNodes sub
      | .mathBlock _ => []
      | .taskListItem _ _ => []
      | .fileUploadBlock _ _ _ => []
      | other => env.reprNode other
  let language :=
    if lang ≠ [] then map_language (pyStrip lang) else plainTextLang
  .code ((chunk_text code_text 2000).map (fun ch => RTItem.text ch none none))
    language

/-- Rich text of the direct Paragraph children of a regular quote. -/
def quoteLoop (env : ConvEnv) : List MNode → List RTItem
  | [] => []
  | .paragraph pcs :: rest => extract_rich_text env pcs ++ quoteLoop env rest
  | _ :: rest => quoteLoop env rest

/-- Rich text of the Paragraph children of a list item. -/
def itemContent (env : ConvEnv) : List MNode → List RTItem
  | [] => []
  | .paragraph pcs :: rest => extract_rich_text env pcs ++ itemContent env rest
  | _ :: rest => itemContent env rest

/-- Blocks produced for the ListItem children of a List node. -/
def listLoop (env : ConvEnv) (ordered : Bool) : List MNode → List NBlock
  | [] => []
  | .listItem ics :: rest =>
      .listItem ordered (itemContent env ics) [] :: listLoop env ordered rest
  | _ :: rest => listLoop env ordered rest

/-- narko.py NotionConverter.process_node. -/
def process_node (env : ConvEnv) (node : MNode) : Option POut :=
  match node with
  | .mathBlock content => some (.one (.equation content))
  | .taskListItem checked content =>
      some (.one (.to_do (create_rich_text content none none) checked))
  | .heading lvl l =>
      some (.one (.heading (min lvl 3) (extract_rich_text env l)))
  | .paragraph l =>
      match l.head? with
      | some c0 =>
        match strChildren c0 with
        | some s =>
            if startsWithStr s ['[', '!'] then none
            else some (.one (.paragraph (extract_rich_text env l)))
        | none => some (.one (.paragraph (extract_rich_text env l)))
      | none => some (.one (.paragraph (extract_rich_text env l)))
  | .codeBlock lang l => some (.one (codeOut env lang l))
  | .fencedCode lang l => some (.one (codeOut env lang l))
  | .quote l =>
      match calloutDetect l with
      | some (tag, after) =>
          some (.one (create_callout env l tag (pyGroup2 after)))
      | none => some (.one (.quote (quoteLoop env l)))
  | .list ordered items => some (.many (listLoop env ordered items))
  | .thematicBreak => some (.one .divider)
  | .blankLine => none
  | _ => none

/-- Accumulation step of NotionConverter.convert. -/
def convLoop (env : ConvEnv) : List MNode → List NBlock
  | [] => []
  | c :: cs =>
    (match process_node env c with
     | none => []
     | some (.one b) => [b]
     | some (.many bs) => bs) ++ convLoop env cs

/-- narko.py NotionConverter.convert over the document children. -/
def convert (env : ConvEnv) (ast_children : List MNode) : List NBlock :=
  convLoop env ast_children

end Narko.Script

namespace Narko.Converter

/-!
### src/narko/converter.py NotionConverter

Only the leaf functions named by the claims are embedded: local-file
classification, plain-text extraction, the inline rich-text extractor,
the paragraph / image / file-upload / link converters, and the
embeddable-url test.
-/

/-- src/narko/converter.py NotionConverter._is_local_file. -/
def is_local_file (env : ConvEnv) (path : PyStr) : Bool :=
  !(startsWithStr path ("http://".data) ||
      startsWithStr path ("https://".data)) && env.fsExists path

mutual

/-- src/narko/converter.py NotionConverter._extract_plain_text: string
children are appended, list children are recursed into, a child with no
children attribute contributes str(child). -/
def extract_plain_text (env : ConvEnv) : List MNode → PyStr
  | [] => []
  | c :: cs => extract_plain_child env c ++ extract_plain_text env cs

def extract_plain_child (env : ConvEnv) : MNode → PyStr
  | .rawText s => s
  | .codeSpan s => s
  | .htmlBlock s => s
  | .document l => extract_plain_text env l
  | .paragraph l => extract_plain_text env l
  | .heading _ l => extract_plain_text env l
  | .codeBlock _ l => extract_plain_text env l
  | .fencedCode _ l => extract_plain_text env l
  | .list _ l => extract_plain_text env l
  | .listItem l => extract_plain_text env l
  | .quote l => extract_plain_text env l
  | .image _ _ l => extract_plain_text env l
  | .link _ _ l => extract_plain_text env l
  | .emphasis l => extract_plain_text env l
  | .strongEmphasis l => extract_plain_text env l
  | .calloutBlock _ _ l => extract_plain_text env l
  | .highlight _ l => extract_plain_text env l
  | .mathBlock _ => []
  | .taskListItem _ _ => []
  | .fileUploadBlock _ _ _ => []
  | n => env.reprNode n

end

/-- src/narko/converter.py NotionConverter._extract_text_data.  The
source also has an InlineCode branch, but no marko or narko class is
named InlineCode (the marko class is CodeSpan), so no node reaches it
and CodeSpan nodes fall through to the final str(node) fallback. -/
def extract_text_data (env : ConvEnv) (node : MNode) : Option RTItem :=
  match node with
  | .rawText s => some (.text s none none)
  | e@(.emphasis _) =>
      some (.text (extract_plain_text env [e]) none
        (some { italic := some true }))
  | e@(.strongEmphasis _) =>
      some (.text (extract_plain_text env [e]) none
        (some { bold := some true }))
  | .link dest _ l =>
      some (.text (extract_plain_text env l) (some dest) none)
  | .image dest _ l =>
      let alt := extract_plain_text env l
      some (.text (("[Image: ".data) ++ pyOr alt dest ++ [']']) none none)
  | .inlineMath content => some (.equation content)
  | .highlight _ l =>
      some (.text (extract_plain_text env l) none
        (some { color := some ("yellow_background".data) }))
  | e =>
      let content := env.reprNode e
      if content.any (fun c => !pyIsSpace c) then
        some (.text content none none)
      else none

/-- src/narko/converter.py NotionConverter._extract_rich_text: keep the
truthy per-child results, with no empty-list substitution. -/
def extract_rich_text (env : ConvEnv) (children : List MNode) :
    List RTItem :=
  children.filterMap (extract_text_data env)

/-- src/narko/converter.py NotionConverter._convert_paragraph (applied
to the node's children). -/
def convert_paragraph (env : ConvEnv) (children : List MNode) : NBlock :=
  .paragraph (extract_rich_text env children)

/-- src/narko/converter.py NotionConverter._create_text_block. -/
def create_text_block (content : PyStr) : NBlock :=
  .paragraph [.text content none none]

/-- Caption list: a single uncaptioned text item when the argument is
truthy, else empty. -/
def capOf (t : PyStr) : List RTItem :=
  if t ≠ [] then [.text t none none] else []

/-- src/narko/converter.py NotionConverter._convert_image, over the
node's dest, title and children.  A missing local file fails the
_is_local_file test and is therefore emitted as an external image
block; an upload result that is falsy or lacks an id key produces no
block (the function falls off its try block and returns None); an
upload that raises produces the failure paragraph. -/
def convert_image (env : ConvEnv) (dest title : PyStr)
    (children : List MNode) : Option NBlock :=
  let alt := extract_plain_text env children
  if is_local_file env dest then
    match env.upload dest with
    | .error _ =>
        some (create_text_block
          (("[Image upload failed: ".data) ++ dest ++ [']']))
    | .ok r =>
        if r.truthy && r.idField.isSome then
          some (.media ("image".data) (.fileUpload (r.idField.getD []))
            (capOf (pyOr title alt)))
        else none
  else
    some (.media ("image".data) (.external dest) (capOf (pyOr title alt)))

def special_file_types : List PyStr :=
  (["image", "video", "audio", "pdf"] : List String).map (·.data)

/-- src/narko/converter.py NotionConverter._convert_file_upload_block,
over the node's file_path, file_type and title attributes. -/
def convert_file_upload_block (env : ConvEnv)
    (file_path file_type title : PyStr) : Option NBlock :=
  if is_local_file env file_path then
    if special_file_types.contains file_type then
      match env.upload file_path with
      | .error _ =>
          some (create_text_block
            (("[File upload failed: ".data) ++ file_path ++ [']']))
      | .ok r =>
          if r.truthy && r.idField.isSome then
            some (.media file_type (.fileUpload (r.idField.getD []))
              (capOf title))
          else none
    else
      match env.upload file_path with
      | .error _ =>
          some (create_text_block
            (("[File upload failed: ".data) ++ file_path ++ [']']))
      | .ok r =>
          if r.truthy && r.idField.isSome then
            some (.media ("file".data) (.fileUpload (r.idField.getD []))
              (capOf title))
          else none
  else
    some (.media file_type (.external file_path) (capOf title))

/-!
### Embeddable links (urlparse netloc plus substring allow-list)
-/

/-- Strip a leading scheme (letter followed by letters, digits, plus,
minus or dot, then a colon), as urlparse does. -/
def dropScheme (url : PyStr) : PyStr :=
  let pre := url.takeWhile (fun c => c ≠ ':')
  let okHead := match pre.head? with
    | some c => c.isAlpha
    | none => false
  let okRest := pre.all
    (fun c => c.isAlpha || c.isDigit || c = '+' || c = '-' || c = '.')
  if pre.length < url.length && okHead && okRest then
    url.drop (pre.length + 1)
  else url

/-- urlparse(url).netloc: the run after a double slash, up to the next
slash, question mark or hash; empty when there is no double slash. -/
def pyNetloc (url : PyStr) : PyStr :=
  let rest := dropScheme url
  if startsWithStr rest ['/', '/'] then
    (rest.drop 2).takeWhile (fun c => c ≠ '/' && c ≠ '?' && c ≠ '#')
  else []

def embeddable_domains : List PyStr :=
  (["youtube.com", "youtu.be", "vimeo.com",
    "twitter.com", "x.com",
    "github.com", "gist.github.com",
    "codepen.io", "jsfiddle.net"] : List String).map (·.data)

/-- src/narko/converter.py NotionConverter._is_embeddable_url: some
allow-listed domain occurs as a substring of the netloc. -/
def is_embeddable_url (url : PyStr) : Bool :=
  embeddable_domains.any (fun d => strContains (pyNetloc url) d)

/-- src/narko/converter.py NotionConverter._convert_link_as_embed,
over the node's dest and children. -/
def convert_link_as_embed (env : ConvEnv) (dest : PyStr)
    (children : List MNode) : Option NBlock :=
  let _text := extract_plain_text env children
  if is_embeddable_url dest then some (.embed dest) else none

end Narko.Converter

namespace Narko.Client

/-!
### src/narko/notion/client.py NotionClient

Outgoing blocks are wire dicts: a possibly missing type key plus an
opaque body.  Fetched blocks carry an id and a possibly missing type
key.  The paginated source of children is modelled as the sequence of
page responses the API returns: response number n is either an error
(a non-200 status, which the source raises on) or a batch, and
has_more is true exactly when a further response follows.  Per-block
delete outcomes are only logged by the source and do not influence the
control flow or the reported counts, so they are not modelled; the
final insert call's outcome is a flag in the environment.
-/

structure JBlock where
  typeTag : Option PyStr
  body : PyStr
deriving DecidableEq

structure RemoteBlock where
  id : PyStr
  btype : Option PyStr
deriving DecidableEq

/-- NotionClient._validate_blocks: skip blocks with no type key.  (The
source also coerces non-string rich-text contents to strings; contents
are strings by construction in this model.) -/
def validate_blocks (blocks : List JBlock) : List JBlock :=
  blocks.filter (fun b => b.typeTag.isSome)

/-- NotionClient.get_page_blocks: follow has_more / next_cursor until
exhausted, concatenating batches in return order; a failing page
request raises, which surfaces as an error. -/
def get_page_blocks :
    List (Except PyStr (List RemoteBlock)) → Except PyStr (List RemoteBlock)
  | [] => .ok []
  | .error e :: _ => .error e
  | .ok batch :: rest =>
    if rest.isEmpty then .ok batch
    else
      match get_page_blocks rest with
      | .error e => .error e
      | .ok more => .ok (batch ++ more)

structure ClientEnv where
  pages : List (Except PyStr (List RemoteBlock))
  insertOk : Bool

structure ReplaceAllReport where
  deleted_blocks : Nat
  added_blocks : Nat
deriving DecidableEq

structure ReplaceContentReport where
  deleted_content_blocks : Nat
  preserved_subpages : Nat
  added_blocks : Nat
deriving DecidableEq

/-- Observable outcome of a replace operation: the block ids a delete
was issued for (in order), the children payload transmitted by the
insert call if one was made, and the returned report or error dict. -/
structure ReplaceOutcome (R : Type) where
  deletedIds : List PyStr
  transmitted : Option (List JBlock)
  report : Except PyStr R

/-- NotionClient.create_page, reduced to its children payload: the
blocks transmitted to the API. -/
def create_page (blocks : List JBlock) : List JBlock :=
  validate_blocks (blocks.take 100)

/-- NotionClient.append_blocks, reduced to its children payload. -/
def append_blocks (blocks : List JBlock) : List JBlock :=
  validate_blocks (blocks.take 100)

def childPageTag : PyStr := "child_page".data

/-- NotionClient.replace_all_blocks. -/
def replace_all_blocks (env : ClientEnv) (new_blocks : List JBlock) :
    ReplaceOutcome ReplaceAllReport :=
  match get_page_blocks env.pages with
  | .error e =>
      { deletedIds := [], transmitted := none,
        report := .error (("Replace all blocks failed: ".data) ++ e) }
  | .ok existing =>
      let ids := existing.map (·.id)
      let validated := validate_blocks (new_blocks.take 100)
      if env.insertOk then
        { deletedIds := ids, transmitted := some validated,
          report := .ok { deleted_blocks := existing.length,
                          added_blocks := validated.length } }
      else
        { deletedIds := ids, transmitted := some validated,
          report := .error
            ("Replace all blocks failed: Failed to add new blocks".data) }

/-- NotionClient.replace_content_blocks: partition the fetched children
into child_page blocks and the rest, delete only the rest, then insert
the validated first hundred new blocks. -/
def replace_content_blocks (env : ClientEnv) (new_blocks : List JBlock) :
    ReplaceOutcome ReplaceContentReport :=
  match get_page_blocks env.pages with
  | .error e =>
      { deletedIds := [], transmitted := none,
        report := .error (("Replace content blocks failed: ".data) ++ e) }
  | .ok existing =>
      let content_blocks :=
        existing.filter (fun b => !(b.btype == some childPageTag))
      let subpage_blocks :=
        existing.filter (fun b => b.btype == some childPageTag)
      let ids := content_blocks.map (·.id)
      let validated := validate_blocks (new_blocks.take 100)
      if env.insertOk then
        { deletedIds := ids, transmitted := some validated,
          report := .ok { deleted_content_blocks := content_blocks.length,
                          preserved_subpages := subpage_blocks.length,
                          added_blocks := validated.length } }
      else
        { deletedIds := ids, transmitted := some validated,
          report := .error
            ("Replace content blocks failed: Failed to add new blocks".data) }

end Narko.Client

namespace Narko

/-!
### Claim theorems: reconciliation client
-/

/-- C5.  For every fetched child-block list, replace_content_blocks
issues deletes for exactly the fetched blocks whose kind is not
child_page (no delete for a child_page block, given the fetched ids are
distinct), and reports preserved_subpages, deleted_content_blocks and
added_blocks as the number of child_page blocks, the number of other
blocks, and the number of new blocks inserted. -/
theorem C5_replace_content_preserves (env : Client.ClientEnv)
    (new_blocks : List Client.JBlock) (existing : List Client.RemoteBlock)
    (hfetch : Client.get_page_blocks env.pages = .ok existing)
    (hins : env.insertOk = true) :
    (Client.replace_content_blocks env new_blocks).deletedIds =
      (existing.filter
        (fun b => !(b.btype == some Client.childPageTag))).map (·.id) ∧
    ((existing.map (·.id)).Nodup →
      ∀ b ∈ existing, b.btype = some Client.childPageTag →
        b.id ∉ (Client.replace_content_blocks env new_blocks).deletedIds) ∧
    (Client.replace_content_blocks env new_blocks).report =
      .ok { deleted_content_blocks :=
              (existing.filter
                (fun b => !(b.btype == some Client.childPageTag))).length,
            preserved_subpages :=
              (existing.filter
                (fun b => b.btype == some Client.childPageTag)).length,
            added_blocks :=
              (Client.validate_blocks (new_blocks.take 100)).length } := by
  have hout : Client.replace_content_blocks env new_blocks =
      ⟨(existing.filter
          (fun b => !(b.btype == some Client.childPageTag))).map (·.id),
       some (Client.validate_blocks (new_blocks.take 100)),
       .ok ⟨(existing.filter
              (fun b => !(b.btype == some Client.childPageTag))).length,
            (existing.filter
              (fun b => b.btype == some Client.childPageTag)).length,
            (Client.validate_blocks (new_blocks.take 100)).length⟩⟩ := by
    unfold Client.replace_content_blocks
    rw [hfetch, hins]
    simp
  refine ⟨by rw [hout], ?_, by rw [hout]⟩
  intro hnodup b hb hpage hmem
  rw [hout] at hmem
  simp only [List.mem_map, List.mem_filter] at hmem
  obtain ⟨b2, ⟨hb2, hb2c⟩, hid⟩ := hmem
  have hbb : b2 = b := List.inj_on_of_nodup_map hnodup hb2 hb hid
  rw [hbb, hpage] at hb2c
  simp at hb2c

def existing5 : List Client.RemoteBlock :=
  [{ id := "b1".data, btype := some ("paragraph".data) },
   { id := "b2".data, btype := some Client.childPageTag },
   { id := "b3".data, btype := some ("heading_1".data) },
   { id := "b4".data, btype := some Client.childPageTag },
   { id := "b5".data, btype := none }]

def env5 : Client.ClientEnv := { pages := [.ok existing5], insertOk := true }

theorem C5_replace_content_preserves_witness :
    ((Client.replace_content_blocks env5 []).deletedIds =
      (existing5.filter
        (fun b => !(b.btype == some Client.childPageTag))).map (·.id) ∧
    ((existing5.map (·.id)).Nodup →
      ∀ b ∈ existing5, b.btype = some Client.childPageTag →
        b.id ∉ (Client.replace_content_blocks env5 []).deletedIds) ∧
    (Client.replace_content_blocks env5 []).report =
      .ok { deleted_content_blocks :=
              (existing5.filter
                (fun b => !(b.btype == some Client.childPageTag))).length,
            preserved_subpages :=
              (existing5.filter
                (fun b => b.btype == some Client.childPageTag)).length,
            added_blocks :=
              (Client.validate_blocks (([] : List Client.JBlock).take 100)).length }) ∧
    (Client.replace_content_blocks env5 []).deletedIds.length = 3 ∧
    (existing5.filter
      (fun b => b.btype == some Client.childPageTag)).length = 2 :=
  ⟨C5_replace_content_preserves env5 [] existing5 rfl rfl,
   by decide, by decide⟩

/-- C6.  For a block list longer than one hundred whose blocks all
carry a type tag, the create, append, replace-all and replace-content
operations each transmit exactly the first hundred blocks, and the
added_blocks counts are computed from those hundred alone. -/
theorem C6_hundred_block_ceiling (env : Client.ClientEnv)
    (blocks : List Client.JBlock) (existing : List Client.RemoteBlock)
    (hlen : 100 < blocks.length)
    (htyped : ∀ b ∈ blocks, b.typeTag.isSome)
    (hfetch : Client.get_page_blocks env.pages = .ok existing)
    (hins : env.insertOk = true) :
    Client.create_page blocks = blocks.take 100 ∧
    Client.append_blocks blocks = blocks.take 100 ∧
    (Client.replace_all_blocks env blocks).transmitted =
      some (blocks.take 100) ∧
    (Client.replace_content_blocks env blocks).transmitted =
      some (blocks.take 100) ∧
    (Client.replace_all_blocks env blocks).report =
      .ok { deleted_blocks := existing.length, added_blocks := 100 } := by
  have hval : Client.validate_blocks (blocks.take 100) = blocks.take 100 := by
    unfold Client.validate_blocks
    exact List.filter_eq_self.mpr
      (fun b hb => htyped b (List.take_subset 100 blocks hb))
  have hvlen : (blocks.take 100).length = 100 := by
    rw [List.length_take]; omega
  have hall : Client.replace_all_blocks env blocks =
      ⟨existing.map (·.id), some (blocks.take 100),
       .ok ⟨existing.length, 100⟩⟩ := by
    unfold Client.replace_all_blocks
    rw [hfetch, hins, hval]
    simp [hvlen]
  have hcontent :
      (Client.replace_content_blocks env blocks).transmitted =
        some (blocks.take 100) := by
    unfold Client.replace_content_blocks
    rw [hfetch, hins, hval]
    simp
  refine ⟨?_, ?_, by rw [hall], hcontent, by rw [hall]⟩
  · unfold Client.create_page; rw [hval]
  · unfold Client.append_blocks; rw [hval]

def blocks150 : List Client.JBlock :=
  (List.range 150).map
    (fun _ => { typeTag := some ("paragraph".data), body := [] })

def envEmptyPage : Client.ClientEnv := { pages := [.ok []], insertOk := true }

theorem C6_hundred_block_ceiling_witness :
    (100 < blocks150.length ∧ ∀ b ∈ blocks150, b.typeTag.isSome) ∧
    (Client.create_page blocks150 = blocks150.take 100 ∧
     Client.append_blocks blocks150 = blocks150.take 100 ∧
     (Client.replace_all_blocks envEmptyPage blocks150).transmitted =
       some (blocks150.take 100) ∧
     (Client.replace_content_blocks envEmptyPage blocks150).transmitted =
       some (blocks150.take 100) ∧
     (Client.replace_all_blocks envEmptyPage blocks150).report =
       .ok { deleted_blocks := ([] : List Client.RemoteBlock).length,
             added_blocks := 100 }) :=
  ⟨⟨by simp [blocks150],
    by
      intro b hb
      simp only [blocks150, List.mem_map] at hb
      obtain ⟨i, -, rfl⟩ := hb
      rfl⟩,
   C6_hundred_block_ceiling envEmptyPage blocks150 []
     (by simp [blocks150])
     (by
       intro b hb
       simp only [blocks150, List.mem_map] at hb
       obtain ⟨i, -, rfl⟩ := hb
       rfl)
     rfl rfl⟩

/-- C9.  Fetch-all concatenates the page batches in return order, and
when a page request fails the enclosing replace strategies issue no
delete, transmit no insert payload, and surface a structured error. -/
theorem C9_pagination_fetch_all :
    (∀ batches : List (List Client.RemoteBlock),
      Client.get_page_blocks (batches.map Except.ok) = .ok batches.flatten) ∧
    (∀ (env : Client.ClientEnv) (nb : List Client.JBlock) (e : PyStr),
      Client.get_page_blocks env.pages = .error e →
        (Client.replace_all_blocks env nb).deletedIds = [] ∧
        (Client.replace_all_blocks env nb).transmitted = none ∧
        (∃ msg, (Client.replace_all_blocks env nb).report = .error msg) ∧
        (Client.replace_content_blocks env nb).deletedIds = [] ∧
        (Client.replace_content_blocks env nb).transmitted = none ∧
        (∃ msg, (Client.replace_content_blocks env nb).report =
          .error msg)) := by
  constructor
  · intro batches
    induction batches with
    | nil => rfl
    | cons b rest ih =>
      cases rest with
      | nil => simp [Client.get_page_blocks]
      | cons b2 rest2 =>
        have h1 : Client.get_page_blocks
            (List.map Except.ok (b :: b2 :: rest2)) =
            match Client.get_page_blocks (List.map Except.ok (b2 :: rest2)) with
            | .error e => .error e
            | .ok more => .ok (b ++ more) := rfl
        rw [h1, ih]
        simp
  · intro env nb e hfetch
    have hall : Client.replace_all_blocks env nb =
        { deletedIds := [], transmitted := none,
          report := .error (("Replace all blocks failed: ".data) ++ e) } := by
      unfold Client.replace_all_blocks
      rw [hfetch]
    have hcontent : Client.replace_content_blocks env nb =
        { deletedIds := [], transmitted := none,
          report := .error
            (("Replace content blocks failed: ".data) ++ e) } := by
      unfold Client.replace_content_blocks
      rw [hfetch]
    rw [hall, hcontent]
    exact ⟨rfl, rfl, ⟨_, rfl⟩, rfl, rfl, ⟨_, rfl⟩⟩

def rbA : Client.RemoteBlock := { id := "a".data, btype := some ("paragraph".data) }
def rbB : Client.RemoteBlock := { id := "b".data, btype := some Client.childPageTag }

def envBad : Client.ClientEnv :=
  { pages := [.ok [rbA], .error ("boom".data)], insertOk := true }

/-!
### Claim theorems: converters
-/

/-- C1.  Evaluation of the package converter at a missing local path:
the path fails the combined not-a-url-and-exists test, so the file and
image converters emit an external-url media block whose url is the
missing path, not a fallback paragraph carrying the path.  This
contradicts the specified Missing outcome. -/
theorem C1_missing_local_behavior :
    Converter.is_local_file trivEnv ("./missing.png".data) = false ∧
    Converter.convert_file_upload_block trivEnv ("./missing.png".data)
      ("image".data) [] =
      some (.media ("image".data) (.external ("./missing.png".data)) []) ∧
    Converter.convert_image trivEnv ("./missing.png".data) [] [] =
      some (.media ("image".data) (.external ("./missing.png".data)) []) := by
  refine ⟨by decide, by rfl, ?_⟩
  have halt : Converter.extract_plain_text trivEnv [] = [] := by
    simp [Converter.extract_plain_text]
  have hloc : Converter.is_local_file trivEnv ("./missing.png".data) = false :=
    by decide
  simp [Converter.convert_image, halt, hloc, Converter.capOf, pyOr]

/-- C2 counterexample: the package converter substitutes nothing when
inline extraction yields no fragments, so an empty paragraph becomes a
paragraph block whose rich_text sequence has length zero. -/
theorem C2_empty_paragraph_cex :
    Converter.convert_paragraph trivEnv [] =
      NBlock.paragraph ([] : List RTItem) := rfl

/-- C2 amended: in the legacy converter the substitution does hold —
extract_rich_text never returns an empty fragment list. -/
theorem C2_mono_nonempty_rich_text (env : ConvEnv) (children : List MNode) :
    Script.extract_rich_text env children ≠ [] := by
  unfold Script.extract_rich_text
  by_cases h : Script.extract_rich_loop env children = [] <;> simp [h]

theorem C2_mono_nonempty_rich_text_witness :
    Script.extract_rich_text trivEnv [] ≠ [] :=
  C2_mono_nonempty_rich_text trivEnv []

/-- C7 counterexample: the package converter renders an inline-math
node as a native equation fragment. -/
theorem C7_equation_fragment_cex :
    Converter.extract_text_data trivEnv (.inlineMath ['x']) =
      some (.equation ['x']) ∧
    Converter.extract_rich_text trivEnv [.inlineMath ['x']] =
      [.equation ['x']] :=
  ⟨rfl, rfl⟩

/-- C7 amended: the legacy converter renders an inline-math node with
content e as the chunked code-annotated text of dollar-e-dollar, and
every fragment it produces for such a node is a code-annotated text
fragment, never an equation fragment. -/
theorem C7_inline_math_fragments (env : ConvEnv) (e : PyStr) :
    Script.extract_rich_text env [.inlineMath e] =
      create_rich_text ('$' :: e ++ ['$'])
        (some { code := some true }) none ∧
    ∀ fr ∈ Script.extract_rich_text env [.inlineMath e],
      ∃ c lnk, fr = RTItem.text c lnk
        (some ({ code := some true } : Annots)) := by
  have h1 : Script.extract_rich_loop env [.inlineMath e] =
      create_rich_text ('$' :: e ++ ['$'])
        (some { code := some true }) none := by
    simp [Script.extract_rich_loop, Script.extract_rich_item]
  have h2 : Script.extract_rich_text env [.inlineMath e] =
      create_rich_text ('$' :: e ++ ['$'])
        (some { code := some true }) none := by
    unfold Script.extract_rich_text
    rw [h1, if_neg (create_rich_text_ne_nil _ _ _)]
  refine ⟨h2, ?_⟩
  intro fr hfr
  rw [h2] at hfr
  unfold create_rich_text at hfr
  simp only [List.mem_map, Option.getD_some] at hfr
  obtain ⟨ch, -, rfl⟩ := hfr
  exact ⟨ch, none, rfl⟩

theorem C7_inline_math_fragments_witness :
    Script.extract_rich_text trivEnv [.inlineMath ['x']] =
      create_rich_text ('$' :: ['x'] ++ ['$'])
        (some { code := some true }) none ∧
    ∀ fr ∈ Script.extract_rich_text trivEnv [.inlineMath ['x']],
      ∃ c lnk, fr = RTItem.text c lnk
        (some ({ code := some true } : Annots)) :=
  C7_inline_math_fragments trivEnv ['x']

/-- C8 counterexample: the netloc of the linux.com url contains the
allow-list entry x.com as a substring, so a standalone link to it is
emitted as an embed block even though its host is not an allow-list
member. -/
theorem C8_substring_domain_cex :
    Converter.convert_link_as_embed trivEnv
      ("https://linux.com/kernel".data) [] =
      some (.embed ("https://linux.com/kernel".data)) ∧
    Converter.pyNetloc ("https://linux.com/kernel".data) =
      "linux.com".data ∧
    "linux.com".data ∉ Converter.embeddable_domains := by
  refine ⟨by rfl, by decide, by decide⟩

/-- C8 amended: a standalone link is emitted as an embed block exactly
when some allow-list entry occurs as a substring of the url's netloc,
and otherwise no block is emitted. -/
theorem C8_embed_iff_substring (env : ConvEnv) (dest : PyStr)
    (children : List MNode) :
    (Converter.convert_link_as_embed env dest children =
        some (.embed dest) ↔
      ∃ d ∈ Converter.embeddable_domains,
        strContains (Converter.pyNetloc dest) d = true) ∧
    (Converter.convert_link_as_embed env dest children =
        some (.embed dest) ∨
      Converter.convert_link_as_embed env dest children = none) := by
  by_cases hb : Converter.is_embeddable_url dest = true
  · have hsome : Converter.convert_link_as_embed env dest children =
        some (.embed dest) := by
      unfold Converter.convert_link_as_embed
      simp [hb]
    have hex : ∃ d ∈ Converter.embeddable_domains,
        strContains (Converter.pyNetloc dest) d = true := by
      have := hb
      unfold Converter.is_embeddable_url at this
      simpa [List.any_eq_true] using this
    exact ⟨⟨fun _ => hex, fun _ => hsome⟩, Or.inl hsome⟩
  · have hnone : Converter.convert_link_as_embed env dest children = none := by
      unfold Converter.convert_link_as_embed
      simp [hb]
    have hnex : ¬ ∃ d ∈ Converter.embeddable_domains,
        strContains (Converter.pyNetloc dest) d = true := by
      intro hex
      apply hb
      unfold Converter.is_embeddable_url
      simpa [List.any_eq_true] using hex
    refine ⟨⟨fun h => ?_, fun hex => absurd hex hnex⟩, Or.inr hnone⟩
    rw [hnone] at h
    cases h

/-- C4.  A blockquote whose first child is a paragraph whose first
text run matches the callout pattern converts to exactly one callout
block, with the icon the fixed emoji lookup assigns to the tag and
rich text beginning with the fragments of the first line with the
callout mark stripped. -/
theorem C4_callout_extraction (env : ConvEnv) (s tag after : PyStr)
    (rest qrest : List MNode)
    (hmatch : Script.calloutTag s = some (tag, after))
    (hrem : Script.stripCalloutMark s ≠ []) :
    ∃ moreRT : List RTItem,
      Script.process_node env
        (.quote (.paragraph (.rawText s :: rest) :: qrest)) =
      some (.one (.callout
        (create_rich_text (Script.stripCalloutMark s) none none ++ moreRT)
        (Script.emojiFor tag) (some ("gray_background".data)))) := by
  refine ⟨Script.extract_rich_loop env rest ++ Script.calloutRest env qrest,
    ?_⟩
  have hdetect : Script.calloutDetect
      ((MNode.paragraph (.rawText s :: rest)) :: qrest) =
      some (tag, after) := by
    simp [Script.calloutDetect, Script.calloutDetect.detectOn, strChildren,
      hmatch]
  have hmod : Script.modified_children (.rawText s :: rest) =
      .rawText (Script.stripCalloutMark s) :: rest := by
    simp [Script.modified_children, strChildren, Script.rebuildNode, hrem]
  have hloop : Script.extract_rich_loop env
      (.rawText (Script.stripCalloutMark s) :: rest) =
      create_rich_text (Script.stripCalloutMark s) none none ++
        Script.extract_rich_loop env rest := by
    simp [Script.extract_rich_loop, Script.extract_rich_item]
  have hext : Script.extract_rich_text env
      (.rawText (Script.stripCalloutMark s) :: rest) =
      create_rich_text (Script.stripCalloutMark s) none none ++
        Script.extract_rich_loop env rest := by
    simp only [Script.extract_rich_text]
    rw [hloop]
    rw [if_neg (by
      intro h
      exact create_rich_text_ne_nil _ _ _ (List.append_eq_nil.mp h).1)]
  have hfirst : Script.calloutFirst env (.paragraph (.rawText s :: rest)) =
      create_rich_text (Script.stripCalloutMark s) none none ++
        Script.extract_rich_loop env rest := by
    simp only [Script.calloutFirst, hmod, List.isEmpty_cons,
      Bool.false_eq_true, if_false]
    exact hext
  have hcall : Script.create_callout env
      ((MNode.paragraph (.rawText s :: rest)) :: qrest) tag
      (Script.pyGroup2 after) =
      .callout (create_rich_text (Script.stripCalloutMark s) none none ++
          (Script.extract_rich_loop env rest ++
            Script.calloutRest env qrest))
        (Script.emojiFor tag) (some ("gray_background".data)) := by
    simp only [Script.create_callout]
    rw [hfirst, List.append_assoc]
  simp only [Script.process_node, hdetect]
  rw [hcall]

theorem C4_callout_extraction_witness :
    Script.calloutTag ("[!WARNING] Disk full".data) =
      some ("WARNING".data, " Disk full".data) ∧
    Script.stripCalloutMark ("[!WARNING] Disk full".data) =
      "Disk full".data ∧
    Script.emojiFor ("WARNING".data) = Script.warningEmoji ∧
    Script.emojiFor ("BOGUS".data) = Script.pinEmoji ∧
    create_rich_text ("Disk full".data) none none =
      [RTItem.text ("Disk full".data) none (some defaultAnnots)] ∧
    (∃ moreRT, Script.process_node trivEnv
        (.quote [.paragraph [.rawText ("[!WARNING] Disk full".data)]]) =
      some (.one (.callout
        (create_rich_text
          (Script.stripCalloutMark ("[!WARNING] Disk full".data))
          none none ++ moreRT)
        (Script.emojiFor ("WARNING".data))
        (some ("gray_background".data))))) :=
  ⟨by decide, by decide, by decide, by decide, by decide,
   C4_callout_extraction trivEnv ("[!WARNING] Disk full".data)
     ("WARNING".data) (" Disk full".data) [] [] (by decide) (by decide)⟩

theorem C8_embed_iff_substring_witness :
    ((Converter.convert_link_as_embed trivEnv
        ("https://youtube.com/w".data) [] =
        some (.embed ("https://youtube.com/w".data)) ↔
      ∃ d ∈ Converter.embeddable_domains,
        strContains (Converter.pyNetloc ("https://youtube.com/w".data)) d =
          true) ∧
     (Converter.convert_link_as_embed trivEnv
        ("https://youtube.com/w".data) [] =
        some (.embed ("https://youtube.com/w".data)) ∨
      Converter.convert_link_as_embed trivEnv
        ("https://youtube.com/w".data) [] = none)) ∧
    Converter.convert_link_as_embed trivEnv
      ("https://youtube.com/w".data) [] =
      some (.embed ("https://youtube.com/w".data)) :=
  ⟨C8_embed_iff_substring trivEnv ("https://youtube.com/w".data) [],
   (C8_embed_iff_substring trivEnv
     ("https://youtube.com/w".data) []).1.mpr (by decide)⟩

/-- C10.  For an existing local path, when the upload delegate returns
normally but its result is falsy or lacks an id key, both the image
converter and the file converter return None: the node is dropped with
no fallback block and no exception. -/
theorem C10_upload_without_id_dropped (env : ConvEnv)
    (url title ftype : PyStr) (children : List MNode) (r : UploadRes)
    (hlocal : Converter.is_local_file env url = true)
    (hup : env.upload url = .ok r)
    (hbad : r.truthy = false ∨ r.idField = none) :
    Converter.convert_image env url title children = none ∧
    Converter.convert_file_upload_block env url ftype title = none := by
  have hcond : (r.truthy && r.idField.isSome) = false := by
    rcases hbad with h | h <;> simp [h]
  constructor
  · unfold Converter.convert_image
    simp [hlocal, hup, hcond]
  · unfold Converter.convert_file_upload_block
    by_cases hsp : Converter.special_file_types.contains ftype <;>
      simp [hlocal, hup, hcond, hsp]

/-- Environment in which every path exists and every upload returns a
truthy result with no id key. -/
def envNoId : ConvEnv :=
  { reprNode := fun _ => [], reprNodes := fun _ => [],
    fsExists := fun _ => true,
    upload := fun _ => .ok { truthy := true, idField := none } }

theorem C10_upload_without_id_dropped_witness :
    Converter.is_local_file envNoId ("a.png".data) = true ∧
    envNoId.upload ("a.png".data) =
      .ok { truthy := true, idField := none } ∧
    (Converter.convert_image envNoId ("a.png".data) [] [] = none ∧
     Converter.convert_file_upload_block envNoId ("a.png".data)
       ("image".data) [] = none) :=
  ⟨by decide, rfl,
   C10_upload_without_id_dropped envNoId ("a.png".data) [] ("image".data)
     [] { truthy := true, idField := none } (by decide) rfl (Or.inr rfl)⟩

theorem C9_pagination_fetch_all_witness :
    Client.get_page_blocks ([[rbA], [rbB]].map Except.ok) =
      .ok ([[rbA], [rbB]].flatten) ∧
    Client.get_page_blocks envBad.pages = .error ("boom".data) ∧
    ((Client.replace_all_blocks envBad []).deletedIds = [] ∧
     (Client.replace_all_blocks envBad []).transmitted = none ∧
     (∃ msg, (Client.replace_all_blocks envBad []).report = .error msg) ∧
     (Client.replace_content_blocks envBad []).deletedIds = [] ∧
     (Client.replace_content_blocks envBad []).transmitted = none ∧
     (∃ msg, (Client.replace_content_blocks envBad []).report =
       .error msg)) :=
  ⟨C9_pagination_fetch_all.1 [[rbA], [rbB]], rfl,
   C9_pagination_fetch_all.2 envBad [] ("boom".data) rfl⟩

end Narko
